import Mathlib

/-!
# Verification of the atc0005/bridge duplicate-detection and pruning core

Shallow embedding of the core of the `bridge` duplicate-file tool:
the size/checksum indexing pipeline (`matches` package), the checksum
type (`checksums` package), the report-row codec and validation
(`internal/dupesets` package) and the prune engine
(`cmd/bridge/prune.go`).  Filesystem effects (stat, digest, backup,
remove) are modelled by oracles collected in `FSModel`; everything
else is translated function-by-function from the Go source.
-/

set_option autoImplicit false

namespace Bridge

/-- Model of `strings.TrimSpace` cutset for the whitespace characters
relevant to this data (ASCII whitespace plus NEL and NBSP from
`unicode.IsSpace`; rarer Unicode space code points are not produced by
any writer in this program). -/
def isGoSpace (c : Char) : Bool :=
  c == '\t' || c == '\n' || c == Char.ofNat 11 || c == Char.ofNat 12 ||
  c == '\r' || c == ' ' || c == Char.ofNat 133 || c == Char.ofNat 160

/-- Drop leading whitespace characters from a character list. -/
def trimLeftChars : List Char → List Char
  | [] => []
  | c :: rest => if isGoSpace c then trimLeftChars rest else c :: rest

/-- Model of `strings.TrimSpace`: drop leading and trailing whitespace. -/
def trimSpace (s : String) : String :=
  String.mk ((trimLeftChars ((trimLeftChars s.data).reverse)).reverse)

/-- Model of Go `strconv.ParseBool`: exactly the listed literals are
accepted. -/
def ParseBool (s : String) : Option Bool :=
  if s = "1" ∨ s = "t" ∨ s = "T" ∨ s = "true" ∨ s = "TRUE" ∨ s = "True" then some true
  else if s = "0" ∨ s = "f" ∨ s = "F" ∨ s = "false" ∨ s = "FALSE" ∨ s = "False" then some false
  else none

/-- Numeric value of a decimal digit character, `none` for any other
character (Go `strconv` digit handling for base 10). -/
def digitVal (c : Char) : Option Nat :=
  if '0' ≤ c ∧ c ≤ '9' then some (c.toNat - '0'.toNat) else none

/-- Accumulating decimal parse loop over the characters of the input,
mirroring the digit loop of Go `strconv.ParseUint` for base 10. -/
def parseDigitsAcc : List Char → Nat → Option Nat
  | [], acc => some acc
  | c :: rest, acc =>
    match digitVal c with
    | none => none
    | some d => parseDigitsAcc rest (acc * 10 + d)

/-- Parse a non-empty all-digit character list into a natural number. -/
def parseNatDigits : List Char → Option Nat
  | [] => none
  | c :: rest => parseDigitsAcc (c :: rest) 0

/-- Model of Go `strconv.ParseInt(s, 10, 64)`: optional sign, at least
one digit, decimal digits only, 64-bit signed range enforced (out of
range is an error, as Go reports `ErrRange`). -/
def ParseInt64 (s : String) : Option Int :=
  match s.data with
  | [] => none
  | c :: rest =>
    if c = '-' then
      (parseNatDigits rest).bind (fun n =>
        if n ≤ 2 ^ 63 then some (-(n : Int)) else none)
    else if c = '+' then
      (parseNatDigits rest).bind (fun n =>
        if n ≤ 2 ^ 63 - 1 then some ((n : Int)) else none)
    else
      (parseNatDigits (c :: rest)).bind (fun n =>
        if n ≤ 2 ^ 63 - 1 then some ((n : Int)) else none)

/-- Decimal digit character for a digit value below ten. -/
def digitChar (d : Nat) : Char :=
  if d = 0 then '0' else if d = 1 then '1' else if d = 2 then '2'
  else if d = 3 then '3' else if d = 4 then '4' else if d = 5 then '5'
  else if d = 6 then '6' else if d = 7 then '7' else if d = 8 then '8'
  else '9'

/-- Little-endian decimal digits of a natural number (empty for zero). -/
def toDigitsRev (n : Nat) : List Nat :=
  if h : n = 0 then [] else n % 10 :: toDigitsRev (n / 10)
decreasing_by exact Nat.div_lt_self (Nat.pos_of_ne_zero h) (by decide)

/-- Decimal string of a natural number. -/
def natRepr (n : Nat) : String :=
  if n = 0 then "0" else String.mk (((toDigitsRev n).reverse).map digitChar)

/-- Model of Go `strconv.FormatInt(n, 10)`. -/
def FormatInt (n : Int) : String :=
  if n < 0 then "-" ++ natRepr (-n).toNat else natRepr n.toNat

/-- Model of `filepath.Join` for the already cleaned directory and file
name components this program joins. -/
def joinPath (dir file : String) : String := dir ++ "/" ++ file

/-- Oracles for every filesystem effect the core performs: existence
checks (`os.Stat` via `paths.PathExists`), content digesting
(`checksums.GenerateCheckSum`, `none` is a read failure), size stat
(`os.Stat(...).Size()`), backup copying (`paths.BackupFile`, `false`
is a failure) and removal (`os.Remove`, `false` is a failure). -/
structure FSModel where
  pathExistsFn : String → Bool
  digest : String → Option String
  statSize : String → Option Int
  backupOk : String → Bool
  removeOk : String → Bool

/-- Embeds `paths.PathExists`: an all-whitespace path is reported as
missing without consulting the filesystem. -/
def PathExists (fs : FSModel) (path : String) : Bool :=
  if trimSpace path = "" then false else fs.pathExistsFn path

/-- `checksums.SHA256Checksum` is a string type in the source. -/
abbrev SHA256Checksum := String

/-- Embeds `SHA256Checksum.Verify`: recompute the digest of the file
and compare it with the recorded checksum; a digest failure or a
mismatch is an error. -/
def SHA256Checksum.Verify (cs : SHA256Checksum) (fs : FSModel) (file : String) :
    Except String Unit :=
  match fs.digest file with
  | none => Except.error "checksum generation failed"
  | some checksum =>
    if checksum ≠ cs then Except.error "checksum mismatch, file likely modified"
    else Except.ok ()

/-- Embeds `matches.FileMatch`: the scanner-recorded file metadata.
`name` and `size` stand for the embedded `os.FileInfo` accessors
`Name()` and `Size()`; the modification time is not used by any
property verified here. -/
structure FileMatch where
  name : String
  fullPath : String
  parentDirectory : String
  size : Int
  checksum : SHA256Checksum
deriving DecidableEq, Repr

/-- `matches.FileMatches`. -/
abbrev FileMatches := List FileMatch

/-- Go maps keyed by size or checksum are modelled as association
lists in the map iteration order; `idxAppend` is the update
`m[k] = append(m[k], vs...)`. -/
abbrev Index (α : Type) := List (α × FileMatches)

/-- `matches.FileSizeIndex`. -/
abbrev FileSizeIndex := Index Int

/-- `matches.FileChecksumIndex`. -/
abbrev FileChecksumIndex := Index SHA256Checksum

/-- The map update `m[k] = append(m[k], vs...)`: extend the bucket of
an existing key in place, otherwise add the key. -/
def idxAppend {α : Type} [DecidableEq α] (m : Index α) (k : α) (vs : FileMatches) :
    Index α :=
  match m with
  | [] => [(k, vs)]
  | (k1, b1) :: rest =>
    if k = k1 then (k1, b1 ++ vs) :: rest else (k1, b1) :: idxAppend rest k vs

/-- Map lookup `m[k]` (the nil slice for a missing key). -/
def idxLookup {α : Type} [DecidableEq α] (m : Index α) (k : α) : FileMatches :=
  match m with
  | [] => []
  | (k1, b1) :: rest => if k = k1 then b1 else idxLookup rest k

/-- The key set of an index. -/
def idxKeys {α : Type} (m : Index α) : List α := m.map Prod.fst

/-- All file records stored in an index, in bucket order. -/
def allFiles {α : Type} (m : Index α) : FileMatches := (m.map Prod.snd).flatten

/-- Embeds `matches.MergeFileSizeIndexes` (variadic in Go): fold every
entry of every received index into the combined index with
`merged[fileSize] = append(merged[fileSize], fileMatches...)`. -/
def MergeFileSizeIndexes (fileSizeIndexes : List FileSizeIndex) : FileSizeIndex :=
  fileSizeIndexes.foldl
    (fun merged fileSizeIndex =>
      fileSizeIndex.foldl (fun m e => idxAppend m e.1 e.2) merged)
    []

/-- One filesystem entry seen by the `ProcessPath` traversal
(`filepath.Walk` callback or `os.ReadDir` loop): its path, base name,
directory flag, size, and the absolute containing directory computed
by `filepath.Abs`. -/
structure WalkEntry where
  path : String
  name : String
  isDir : Bool
  size : Int
  absDir : String
deriving DecidableEq, Repr

/-- The `FileMatch` record `ProcessPath` constructs for a retained
entry (checksum left at its zero value). -/
def mkFileMatch (e : WalkEntry) : FileMatch :=
  { name := e.name, fullPath := e.path, parentDirectory := e.absDir,
    size := e.size, checksum := "" }

/-- Embeds `matches.ProcessPath`: the record-building logic shared by
the recursive (`filepath.Walk`) and flat (`os.ReadDir`) branches —
skip directories, skip files strictly below the size threshold, and
append every other file to the bucket of its exact size. -/
def ProcessPath (fileSizeThreshold : Int) (entries : List WalkEntry) : FileSizeIndex :=
  entries.foldl
    (fun fileSizeIndex e =>
      if e.isDir then fileSizeIndex
      else if e.size < fileSizeThreshold then fileSizeIndex
      else idxAppend fileSizeIndex e.size [mkFileMatch e])
    []

/-- Embeds `matches.NewFileSizeIndex`: process each root and merge its
partial index into the combined one. -/
def NewFileSizeIndex (fileSizeThreshold : Int) (roots : List (List WalkEntry)) :
    FileSizeIndex :=
  roots.foldl
    (fun combined entries =>
      MergeFileSizeIndexes [combined, ProcessPath fileSizeThreshold entries])
    []

/-- Embeds `FileSizeIndex.PruneFileSizeIndex`: delete every bucket
whose member count is strictly below the duplicates threshold. -/
def FileSizeIndex.PruneFileSizeIndex (fi : FileSizeIndex) (duplicatesThreshold : Int) :
    FileSizeIndex :=
  fi.filter (fun e => !decide ((e.2.length : Int) < duplicatesThreshold))

/-- Embeds `FileChecksumIndex.PruneFileChecksumIndex`: the same
drop-small-buckets deletion, keyed by checksum. -/
def FileChecksumIndex.PruneFileChecksumIndex (fi : FileChecksumIndex)
    (duplicatesThreshold : Int) : FileChecksumIndex :=
  fi.filter (fun e => !decide ((e.2.length : Int) < duplicatesThreshold))

/-- Embeds `FileSizeIndex.GetTotalFilesCount`. -/
def FileSizeIndex.GetTotalFilesCount (fi : FileSizeIndex) : Nat :=
  fi.foldl (fun files e => files + e.2.length) 0

/-- Embeds `FileChecksumIndex.GetTotalFilesCount`. -/
def FileChecksumIndex.GetTotalFilesCount (fi : FileChecksumIndex) : Nat :=
  fi.foldl (fun files e => files + e.2.length) 0

/-- Size of the representative (first) member of a duplicate set; the
Go code indexes `fileMatches[0]`, which is reached only for the
non-empty buckets a pruned index contains. -/
def bucketHeadSize (b : FileMatches) : Int :=
  match b with
  | [] => 0
  | f :: _ => f.size

/-- Embeds `FileChecksumIndex.GetWastedSpace`: per duplicate set, the
member count minus one times the size of the first member. -/
def FileChecksumIndex.GetWastedSpace (fi : FileChecksumIndex) : Int :=
  fi.foldl (fun wastedSpace e =>
    wastedSpace + ((e.2.length : Int) - 1) * bucketHeadSize e.2) 0

/-- Embeds `FileChecksumIndex.GetDuplicateFilesCount`: member count
minus one (the original) per duplicate set. -/
def FileChecksumIndex.GetDuplicateFilesCount (fi : FileChecksumIndex) : Int :=
  fi.foldl (fun duplicateFiles e => duplicateFiles + ((e.2.length : Int) - 1)) 0

/-- Embeds `FileMatches.UpdateChecksums`: digest each file and store
the result on the record; a digest failure aborts unless errors are
ignored, in which case the record is skipped (checksum unchanged). -/
def FileMatches.UpdateChecksums (fs : FSModel) (ignoreErrors : Bool) :
    FileMatches → Except String FileMatches
  | [] => Except.ok []
  | f :: rest =>
    match fs.digest f.fullPath with
    | some cs =>
      (FileMatches.UpdateChecksums fs ignoreErrors rest).map
        (fun r => { f with checksum := cs } :: r)
    | none =>
      if ignoreErrors then
        (FileMatches.UpdateChecksums fs ignoreErrors rest).map (fun r => f :: r)
      else Except.error "checksum generation failed"

/-- Embeds `FileSizeIndex.UpdateChecksums`: update every bucket,
gating per-bucket failures on the ignore-errors flag. -/
def FileSizeIndex.UpdateChecksums (fs : FSModel) (ignoreErrors : Bool) :
    FileSizeIndex → Except String FileSizeIndex
  | [] => Except.ok []
  | (k, b) :: rest =>
    match FileMatches.UpdateChecksums fs ignoreErrors b with
    | Except.ok b2 =>
      (FileSizeIndex.UpdateChecksums fs ignoreErrors rest).map (fun r => (k, b2) :: r)
    | Except.error e =>
      if ignoreErrors then
        (FileSizeIndex.UpdateChecksums fs ignoreErrors rest).map (fun r => (k, b) :: r)
      else Except.error e

/-- Embeds `matches.NewFileChecksumIndex`: regroup every record of the
size index by its checksum. -/
def NewFileChecksumIndex (fi : FileSizeIndex) : FileChecksumIndex :=
  fi.foldl
    (fun fileChecksumIndex e =>
      e.2.foldl (fun acc fileMatch => idxAppend acc fileMatch.checksum [fileMatch]) fileChecksumIndex)
    []

/-- `config.InputCSVFieldCount`. -/
def InputCSVFieldCount : Nat := 6

/-- Embeds `dupesets.DuplicateFileSetEntry`: one parsed report row. -/
structure DuplicateFileSetEntry where
  parentDirectory : String
  filename : String
  sizeHR : String
  sizeInBytes : Int
  checksum : SHA256Checksum
  removeFile : Bool
deriving DecidableEq, Repr

/-- `dupesets.DuplicateFileSetEntries`. -/
abbrev DuplicateFileSetEntries := List DuplicateFileSetEntry

/-- Embeds `DuplicateFileSetEntries.FilesToRemove`: the entries whose
removal flag is set. -/
def DuplicateFileSetEntries.FilesToRemove (dfsEntries : DuplicateFileSetEntries) :
    DuplicateFileSetEntries :=
  dfsEntries.filter (fun entry => entry.removeFile)

/-- Embeds `dupesets.ParseInputRow`: field-count recheck, whitespace
trimming, required parent directory / filename / checksum, optional
size-in-bytes (zero when blank) and removal flag (false when blank).
The positional accesses mirror `row[0]`..`row[5]`, reached only after
the count check has established six fields. -/
def ParseInputRow (row : List String) (fieldCount : Nat) (rowNum : Nat) :
    Except String DuplicateFileSetEntry :=
  if row.length ≠ fieldCount then
    Except.error "unexpected number of fields received"
  else
    let r := row.map trimSpace
    let f0 := r.getD 0 ""
    let f1 := r.getD 1 ""
    let f2 := r.getD 2 ""
    let f3 := r.getD 3 ""
    let f4 := r.getD 4 ""
    let f5 := r.getD 5 ""
    if f0 = "" then Except.error "empty parent directory path"
    else if f1 = "" then Except.error "empty filename"
    else
      match (if f3 = "" then some 0 else ParseInt64 f3) with
      | none => Except.error "failed to convert CSV sizeInBytes field"
      | some sizeInBytes =>
        if f4 = "" then Except.error "empty checksum"
        else
          match (if f5 = "" then some false else ParseBool f5) with
          | none => Except.error "failed to convert CSV remove file field"
          | some removeFile =>
            Except.ok
              { parentDirectory := f0, filename := f1, sizeHR := f2,
                sizeInBytes := sizeInBytes, checksum := f4,
                removeFile := removeFile }

/-- Embeds `dupesets.ValidateInputRow`: the parent directory must
exist, the joined full path must exist, and the recorded checksum must
verify against the live file content. -/
def ValidateInputRow (fs : FSModel) (dfsEntry : DuplicateFileSetEntry)
    (rowNum : Nat) : Except String Unit :=
  if PathExists fs dfsEntry.parentDirectory = false then
    Except.error "row has invalid parent directory path"
  else
    if PathExists fs (joinPath dfsEntry.parentDirectory dfsEntry.filename) = false then
      Except.error "row has invalid path to file"
    else
      SHA256Checksum.Verify dfsEntry.checksum fs
        (joinPath dfsEntry.parentDirectory dfsEntry.filename)

/-- Embeds `DuplicateFileSetEntry.UpdateSizeInfo`: re-stat the file to
fill in the byte size only when the parsed value is zero, then
regenerate the human-readable size from the byte size only when it is
blank.  `hr` is the out-of-scope `units.ByteCountIEC` collaborator. -/
def UpdateSizeInfo (fs : FSModel) (hr : Int → String)
    (dfsEntry : DuplicateFileSetEntry) : Except String DuplicateFileSetEntry :=
  (if dfsEntry.sizeInBytes = 0 then
      match fs.statSize (joinPath dfsEntry.parentDirectory dfsEntry.filename) with
      | none => Except.error "unable to stat file to determine size in bytes"
      | some sz => Except.ok { dfsEntry with sizeInBytes := sz }
    else Except.ok dfsEntry).map
    (fun e => if e.sizeHR = "" then { e with sizeHR := hr e.sizeInBytes } else e)

/-- The configuration fields of `config.Config` that the prune
subcommand consults. -/
structure PruneConfig where
  useFirstRow : Bool
  ignoreErrors : Bool
  dryRun : Bool
  backupDirectory : String
deriving DecidableEq, Repr

/-- Outcome of handling one CSV row inside the `pruneSubcommand` read
loop: skipped (header row, or an error ignored under ignore-errors),
fatal abort (`log.Fatal`), or accepted into the entry list. -/
inductive RowStep where
  | skipped : RowStep
  | fatal : RowStep
  | accepted : DuplicateFileSetEntry → RowStep
deriving DecidableEq, Repr

/-- One iteration of the `pruneSubcommand` read loop on the record of
row `rowNum` (1-based): header skip, then parse, validate and size
backfill, each gated by the ignore-errors flag. -/
def processOneRow (cfg : PruneConfig) (fs : FSModel) (hr : Int → String)
    (rowNum : Nat) (row : List String) : RowStep :=
  if rowNum = 1 ∧ cfg.useFirstRow = false then RowStep.skipped
  else
    match ParseInputRow row InputCSVFieldCount rowNum with
    | Except.error _ => if cfg.ignoreErrors then RowStep.skipped else RowStep.fatal
    | Except.ok dfsEntry =>
      match ValidateInputRow fs dfsEntry rowNum with
      | Except.error _ => if cfg.ignoreErrors then RowStep.skipped else RowStep.fatal
      | Except.ok _ =>
        match UpdateSizeInfo fs hr dfsEntry with
        | Except.error _ => if cfg.ignoreErrors then RowStep.skipped else RowStep.fatal
        | Except.ok updated => RowStep.accepted updated

/-- Result of the read loop: aborted at a row, or completed with the
accepted entries tagged by their row number. -/
inductive LoopOutcome where
  | fatalAt : Nat → LoopOutcome
  | completed : List (Nat × DuplicateFileSetEntry) → LoopOutcome
deriving DecidableEq, Repr

/-- The read loop from row number `rowNum` over the remaining CSV
records. -/
def processRowsFrom (cfg : PruneConfig) (fs : FSModel) (hr : Int → String) :
    Nat → List (List String) → LoopOutcome
  | _, [] => LoopOutcome.completed []
  | rowNum, row :: rest =>
    match processOneRow cfg fs hr rowNum row with
    | RowStep.skipped => processRowsFrom cfg fs hr (rowNum + 1) rest
    | RowStep.fatal => LoopOutcome.fatalAt rowNum
    | RowStep.accepted e =>
      match processRowsFrom cfg fs hr (rowNum + 1) rest with
      | LoopOutcome.fatalAt n => LoopOutcome.fatalAt n
      | LoopOutcome.completed es => LoopOutcome.completed ((rowNum, e) :: es)

/-- The whole `pruneSubcommand` read loop (row counting starts at 1). -/
def processRows (cfg : PruneConfig) (fs : FSModel) (hr : Int → String)
    (rows : List (List String)) : LoopOutcome :=
  processRowsFrom cfg fs hr 1 rows

/-- Backup loop of `pruneSubcommand`: back up each flagged file in
order; a `paths.BackupFile` failure is a `log.Fatal` regardless of the
ignore-errors flag (the source marks the missing gate with a FIXME).
Returns the row-tagged paths backed up before any failure, and whether
the loop aborted. -/
def runBackups (fs : FSModel) :
    List (Nat × DuplicateFileSetEntry) → List (Nat × String) × Bool
  | [] => ([], false)
  | (n, e) :: rest =>
    let p := joinPath e.parentDirectory e.filename
    if fs.backupOk p then
      let r := runBackups fs rest
      ((n, p) :: r.1, r.2)
    else ([], true)

/-- Removal loop of `pruneSubcommand`: remove each flagged file; a
failure is counted and skipped under ignore-errors, otherwise it is a
`log.Fatal`.  Returns the row-tagged paths removed, the failure count
and whether the loop aborted. -/
def runRemovals (fs : FSModel) (ignoreErrors : Bool) :
    List (Nat × DuplicateFileSetEntry) → List (Nat × String) × Nat × Bool
  | [] => ([], 0, false)
  | (n, e) :: rest =>
    let p := joinPath e.parentDirectory e.filename
    if fs.removeOk p then
      let r := runRemovals fs ignoreErrors rest
      ((n, p) :: r.1, r.2.1, r.2.2)
    else if ignoreErrors then
      let r := runRemovals fs ignoreErrors rest
      (r.1, r.2.1 + 1, r.2.2)
    else ([], 0, true)

/-- Observable effects of the action phase of `pruneSubcommand`:
whether it aborted (`log.Fatal`), which row-tagged files were backed
up and removed, the removal failure count, and whether the final
`File removal: N success, M fail` tally line was printed. -/
structure ActionResult where
  fatalStop : Bool
  backedUp : List (Nat × String)
  removed : List (Nat × String)
  removedFail : Nat
  tallyPrinted : Bool
deriving DecidableEq, Repr

/-- The action result of a run that performs no action (dry run,
nothing flagged, or abort before the action phase). -/
def noActions : ActionResult :=
  { fatalStop := false, backedUp := [], removed := [], removedFail := 0,
    tallyPrinted := false }

/-- Action phase of `pruneSubcommand` on the flagged entries: skipped
entirely in dry-run mode; otherwise the backup phase runs first when a
backup directory is configured (a missing backup directory or a backup
failure aborts), then the removal loop, and the tally line prints only
when the removal loop completes. -/
def runActions (cfg : PruneConfig) (fs : FSModel)
    (filesToRemove : List (Nat × DuplicateFileSetEntry)) : ActionResult :=
  if cfg.dryRun then noActions
  else
    let afterBackups : ActionResult → ActionResult := fun base =>
      let r := runRemovals fs cfg.ignoreErrors filesToRemove
      if r.2.2 then
        { base with
          fatalStop := true
          removed := r.1
          removedFail := r.2.1
          tallyPrinted := false }
      else
        { base with
          removed := r.1
          removedFail := r.2.1
          tallyPrinted := true }
    if cfg.backupDirectory ≠ "" then
      if PathExists fs cfg.backupDirectory = false then
        { noActions with fatalStop := true }
      else
        let b := runBackups fs filesToRemove
        if b.2 then { noActions with fatalStop := true, backedUp := b.1 }
        else afterBackups { noActions with backedUp := b.1 }
    else afterBackups noActions

/-- Full result of one `pruneSubcommand` run. -/
structure RunResult where
  loopFatalAt : Option Nat
  accepted : List (Nat × DuplicateFileSetEntry)
  actions : ActionResult
deriving DecidableEq, Repr

/-- Embeds `pruneSubcommand` end to end: read loop, selection of the
flagged rows, then the action phase; an abort in the read loop exits
the process before any action. -/
def pruneRun (cfg : PruneConfig) (fs : FSModel) (hr : Int → String)
    (rows : List (List String)) : RunResult :=
  match processRows cfg fs hr rows with
  | LoopOutcome.fatalAt n =>
    { loopFatalAt := some n, accepted := [], actions := noActions }
  | LoopOutcome.completed es =>
    let filesToRemove := es.filter (fun p => p.2.removeFile)
    if filesToRemove.isEmpty then
      { loopFatalAt := none, accepted := es, actions := noActions }
    else
      { loopFatalAt := none, accepted := es,
        actions := runActions cfg fs filesToRemove }

/-- `matches.DuplicateFilesSummary`. -/
structure DuplicateFilesSummary where
  TotalEvaluatedFiles : Nat
  FileSizeMatchSets : Nat
  FileHashMatchSets : Nat
  FileSizeMatches : Nat
  FileHashMatches : Nat
  WastedSpace : Int
  DuplicateCount : Int
deriving DecidableEq, Repr

/-- Embeds the scan pipeline of `cmd/report/main.go`: build the
combined size index, prune it, update checksums, regroup by checksum,
prune again, and assemble the `DuplicateFilesSummary` literal exactly
as the source does (in particular `TotalEvaluatedFiles` and
`FileSizeMatchSets` both read `len(combinedFileSizeIndex)` after size
pruning). -/
def reportSummary (fs : FSModel) (ignoreErrors : Bool) (fileSizeThreshold : Int)
    (duplicatesThreshold : Int) (roots : List (List WalkEntry)) :
    Except String DuplicateFilesSummary :=
  let combined := NewFileSizeIndex fileSizeThreshold roots
  let pruned := FileSizeIndex.PruneFileSizeIndex combined duplicatesThreshold
  (FileSizeIndex.UpdateChecksums fs ignoreErrors pruned).map (fun updated =>
    let fileChecksumIndex :=
      FileChecksumIndex.PruneFileChecksumIndex (NewFileChecksumIndex updated)
        duplicatesThreshold
    { TotalEvaluatedFiles := updated.length,
      FileSizeMatches := FileSizeIndex.GetTotalFilesCount updated,
      FileSizeMatchSets := updated.length,
      FileHashMatches := FileChecksumIndex.GetTotalFilesCount fileChecksumIndex,
      FileHashMatchSets := fileChecksumIndex.length,
      WastedSpace := FileChecksumIndex.GetWastedSpace fileChecksumIndex,
      DuplicateCount := FileChecksumIndex.GetDuplicateFilesCount fileChecksumIndex })

/-- `FileChecksumIndex.GenerateCSVHeaderRow` (receiver unused). -/
def GenerateCSVHeaderRow : List String :=
  ["directory", "file", "size", "size_in_bytes", "checksum", "remove_file"]

/-- `FileMatches.GenerateEmptyCSVDataRow` (receiver unused): the
optional separator row of six empty fields. -/
def GenerateEmptyCSVDataRow : List String := ["", "", "", "", "", ""]

/-- Embeds `FileMatch.GenerateCSVDataRow`: directory, base name,
human-readable size (`units.ByteCountIEC`, the collaborator `hr`),
decimal byte size, checksum, and the falsy empty removal flag. -/
def FileMatch.GenerateCSVDataRow (hr : Int → String) (fm : FileMatch) : List String :=
  [fm.parentDirectory, fm.name, hr fm.size, FormatInt fm.size, fm.checksum, ""]

/-- The record stream emitted by `FileChecksumIndex.WriteFileMatchesCSV`:
the header row, then per duplicate set an optional separator row
followed by one data row per file. -/
def WriteFileMatchesCSVRows (hr : Int → String) (fi : FileChecksumIndex)
    (blankLineBetweenSets : Bool) : List (List String) :=
  GenerateCSVHeaderRow ::
    (fi.map (fun e =>
      (if blankLineBetweenSets then [GenerateEmptyCSVDataRow] else []) ++
        e.2.map (FileMatch.GenerateCSVDataRow hr))).flatten

/-- The `DuplicateFileSetEntry` the read path produces for a data row
the write path emitted for `fm`: directory, filename and checksum are
the original values, the byte size reparses to the original size, the
human-readable size is the trimmed humanizer output, and the removal
flag defaults to false from the blank placeholder. -/
def roundTripEntry (hr : Int → String) (fm : FileMatch) : DuplicateFileSetEntry :=
  { parentDirectory := fm.parentDirectory, filename := fm.name,
    sizeHR := trimSpace (hr fm.size), sizeInBytes := fm.size,
    checksum := fm.checksum, removeFile := false }

/-- All buckets stored under key `k`, concatenated in entry order;
coincides with `idxLookup` when keys are unique. -/
def bucketsOf {α : Type} [DecidableEq α] (m : Index α) (k : α) : FileMatches :=
  (m.map (fun e => if e.1 = k then e.2 else [])).flatten

/-- Folding the entries of `src` into `acc` (the inner loop of
`MergeFileSizeIndexes`). -/
def mergeInto {α : Type} [DecidableEq α] (acc src : Index α) : Index α :=
  src.foldl (fun m e => idxAppend m e.1 e.2) acc

/-! ## Concrete fixtures used by witnesses and counterexamples -/

/-- A 5-byte regular file seen by the scanner. -/
def entryA : WalkEntry :=
  { path := "/d/a.txt", name := "a.txt", isDir := false, size := 5, absDir := "/d" }

/-- A second 5-byte regular file. -/
def entryB : WalkEntry :=
  { path := "/d/b.txt", name := "b.txt", isDir := false, size := 5, absDir := "/d" }

/-- A directory entry (skipped by the scanner). -/
def entryDir : WalkEntry :=
  { path := "/d/sub", name := "sub", isDir := true, size := 0, absDir := "/d" }

/-- A 1-byte file, below the 2-byte threshold used in the witness. -/
def entrySmall : WalkEntry :=
  { path := "/d/c.txt", name := "c.txt", isDir := false, size := 1, absDir := "/d" }

/-- A small scan used by witnesses. -/
def scanEntries : List WalkEntry := [entryA, entryB, entryDir, entrySmall]

/-- Concrete file records used by witnesses. -/
def fmA : FileMatch :=
  { name := "a.txt", fullPath := "/d/a.txt", parentDirectory := "/d", size := 5,
    checksum := "aa" }

def fmB : FileMatch :=
  { name := "b.txt", fullPath := "/d/b.txt", parentDirectory := "/d", size := 5,
    checksum := "bb" }

def fmC : FileMatch :=
  { name := "c.txt", fullPath := "/d/c.txt", parentDirectory := "/d", size := 7,
    checksum := "cc" }

/-- Small partial size indexes used by the merge witness. -/
def idxA : FileSizeIndex := [(5, [fmA])]

def idxB : FileSizeIndex := [(5, [fmB]), (7, [fmC])]

def idxC : FileSizeIndex := [(7, [fmC])]

/-- A filesystem model where every path exists, every file digests to
the checksum string dd, stats report 5 bytes, and backups and removals
succeed. -/
def fsW : FSModel :=
  { pathExistsFn := fun _ => true, digest := fun _ => some "dd",
    statSize := fun _ => some 5, backupOk := fun _ => true,
    removeOk := fun _ => true }

/-- A trivial stand-in for the out-of-scope byte humanizer. -/
def hrW : Int → String := fun _ => "5 B"

/-- A report row recording checksum aa for a file whose live digest
(under `fsW`) is dd, flagged for removal. -/
def rowW : List String := ["/d", "a.txt", "", "5", "aa", "true"]

/-- A report consisting of the header row and the stale row. -/
def rowsW : List (List String) := [GenerateCSVHeaderRow, rowW]

/-- The entry `ParseInputRow` produces for `rowW`. -/
def eW : DuplicateFileSetEntry :=
  { parentDirectory := "/d", filename := "a.txt", sizeHR := "", sizeInBytes := 5,
    checksum := "aa", removeFile := true }

/-- Strict-mode prune configuration. -/
def cfgStrict : PruneConfig :=
  { useFirstRow := false, ignoreErrors := false, dryRun := false,
    backupDirectory := "" }

/-- Ignore-errors prune configuration. -/
def cfgIgnore : PruneConfig :=
  { useFirstRow := false, ignoreErrors := true, dryRun := false,
    backupDirectory := "" }

/-- Ignore-errors configuration with a backup directory. -/
def cfgBak : PruneConfig :=
  { useFirstRow := false, ignoreErrors := true, dryRun := false,
    backupDirectory := "/bak" }

/-- A filesystem model whose backup copies always fail. -/
def fsBakFail : FSModel :=
  { pathExistsFn := fun _ => true, digest := fun _ => some "aa",
    statSize := fun _ => some 5, backupOk := fun _ => false,
    removeOk := fun _ => true }

/-- A filesystem model whose removals always fail. -/
def fsRemFail : FSModel :=
  { pathExistsFn := fun _ => true, digest := fun _ => some "aa",
    statSize := fun _ => some 5, backupOk := fun _ => true,
    removeOk := fun _ => false }

/-- An entry whose report row carried a nonzero byte size and a
non-blank human-readable size. -/
def eWnz : DuplicateFileSetEntry :=
  { parentDirectory := "/d", filename := "a.txt", sizeHR := "5 B",
    sizeInBytes := 42, checksum := "aa", removeFile := false }

/-- The end-to-end scenario of the spec: three 100-byte files, two of
them byte-identical. -/
def scanC5 : List WalkEntry :=
  [{ path := "/x/a.txt", name := "a.txt", isDir := false, size := 100, absDir := "/x" },
   { path := "/x/b.txt", name := "b.txt", isDir := false, size := 100, absDir := "/x" },
   { path := "/x/c.txt", name := "c.txt", isDir := false, size := 100, absDir := "/x" }]

/-- Digests for the scenario: the first two files are identical. -/
def fsC5 : FSModel :=
  { pathExistsFn := fun _ => true,
    digest := fun p =>
      if p = "/x/a.txt" then some "aa"
      else if p = "/x/b.txt" then some "aa"
      else some "bb",
    statSize := fun _ => some 100, backupOk := fun _ => true,
    removeOk := fun _ => true }

/-! ## Helper lemmas about the association-list map model -/

theorem idxLookup_idxAppend {α : Type} [DecidableEq α] (m : Index α) (k : α)
    (vs : FileMatches) (q : α) :
    idxLookup (idxAppend m k vs) q =
      if q = k then idxLookup m q ++ vs else idxLookup m q := by
  induction m with
  | nil =>
    by_cases hq : q = k <;> simp [idxAppend, idxLookup, hq]
  | cons hd tl ih =>
    obtain ⟨k1, b1⟩ := hd
    by_cases hk : k = k1
    · subst hk
      by_cases hq : q = k <;> simp [idxAppend, idxLookup, hq]
    · by_cases hq : q = k1
      · subst hq
        have hqk : ¬q = k := fun h => hk h.symm
        simp [idxAppend, idxLookup, hk, hqk]
      · simp [idxAppend, idxLookup, hk, hq, ih]

theorem mem_idxKeys_idxAppend {α : Type} [DecidableEq α] (m : Index α) (k : α)
    (vs : FileMatches) (q : α) :
    q ∈ idxKeys (idxAppend m k vs) ↔ q ∈ idxKeys m ∨ q = k := by
  induction m with
  | nil => simp [idxAppend, idxKeys]
  | cons hd tl ih =>
    obtain ⟨k1, b1⟩ := hd
    by_cases hk : k = k1
    · subst hk
      simp only [idxAppend, if_pos rfl, if_true, idxKeys, List.map_cons,
        List.mem_cons]
      tauto
    · simp only [idxAppend, hk, if_false, idxKeys, List.map_cons, List.mem_cons]
      rw [idxKeys] at ih
      rw [ih]
      tauto

theorem nodup_idxKeys_idxAppend {α : Type} [DecidableEq α] (m : Index α) (k : α)
    (vs : FileMatches) (h : (idxKeys m).Nodup) :
    (idxKeys (idxAppend m k vs)).Nodup := by
  induction m with
  | nil => simp [idxAppend, idxKeys]
  | cons hd tl ih =>
    obtain ⟨k1, b1⟩ := hd
    simp only [idxKeys, List.map_cons, List.nodup_cons] at h
    by_cases hk : k = k1
    · subst hk
      simp only [idxAppend, if_pos rfl, idxKeys, List.map_cons, List.nodup_cons,
        if_true]
      exact h
    · simp only [idxAppend, hk, if_false, idxKeys, List.map_cons, List.nodup_cons]
      refine ⟨?_, ih h.2⟩
      intro hmem
      rcases (mem_idxKeys_idxAppend tl k vs k1).mp hmem with h1 | h1
      · exact h.1 h1
      · exact hk h1.symm

theorem bucketsOf_nil_of_not_mem {α : Type} [DecidableEq α] (m : Index α) (k : α)
    (h : k ∉ idxKeys m) : bucketsOf m k = [] := by
  induction m with
  | nil => simp [bucketsOf]
  | cons hd tl ih =>
    obtain ⟨k1, b1⟩ := hd
    simp only [idxKeys, List.map_cons, List.mem_cons] at h
    push_neg at h
    have hk : ¬k1 = k := fun hh => h.1 hh.symm
    simp only [bucketsOf, List.map_cons, List.flatten_cons, hk, if_false,
      List.nil_append]
    exact ih h.2

theorem bucketsOf_eq_idxLookup {α : Type} [DecidableEq α] (m : Index α) (k : α)
    (h : (idxKeys m).Nodup) : bucketsOf m k = idxLookup m k := by
  induction m with
  | nil => simp [bucketsOf, idxLookup]
  | cons hd tl ih =>
    obtain ⟨k1, b1⟩ := hd
    simp only [idxKeys, List.map_cons, List.nodup_cons] at h
    by_cases hk : k1 = k
    · subst hk
      simp only [bucketsOf, List.map_cons, List.flatten_cons, if_pos rfl,
        idxLookup, if_pos rfl]
      have hnil : bucketsOf tl k1 = [] := bucketsOf_nil_of_not_mem tl k1 h.1
      rw [bucketsOf] at hnil
      rw [hnil, List.append_nil]
      simp
    · have hk2 : ¬k = k1 := fun hh => hk hh.symm
      simp only [bucketsOf, List.map_cons, List.flatten_cons, hk, if_false,
        idxLookup, hk2, List.nil_append]
      exact ih h.2

theorem idxLookup_mergeInto {α : Type} [DecidableEq α] (src acc : Index α) (k : α) :
    idxLookup (mergeInto acc src) k = idxLookup acc k ++ bucketsOf src k := by
  induction src generalizing acc with
  | nil => simp [mergeInto, bucketsOf]
  | cons hd tl ih =>
    obtain ⟨k1, b1⟩ := hd
    simp only [mergeInto, List.foldl_cons] at *
    rw [ih (idxAppend acc k1 b1), idxLookup_idxAppend]
    simp only [bucketsOf, List.map_cons, List.flatten_cons]
    by_cases hk : k = k1
    · subst hk
      simp [List.append_assoc]
    · have hk2 : ¬k1 = k := fun hh => hk hh.symm
      simp [hk, hk2]

theorem mem_idxKeys_mergeInto {α : Type} [DecidableEq α] (src acc : Index α) (q : α) :
    q ∈ idxKeys (mergeInto acc src) ↔ q ∈ idxKeys acc ∨ q ∈ idxKeys src := by
  induction src generalizing acc with
  | nil => simp [mergeInto, idxKeys]
  | cons hd tl ih =>
    obtain ⟨k1, b1⟩ := hd
    simp only [mergeInto, List.foldl_cons] at *
    rw [ih (idxAppend acc k1 b1)]
    rw [mem_idxKeys_idxAppend]
    simp only [idxKeys, List.map_cons, List.mem_cons]
    tauto

theorem nodup_idxKeys_mergeInto {α : Type} [DecidableEq α] (src acc : Index α)
    (h : (idxKeys acc).Nodup) : (idxKeys (mergeInto acc src)).Nodup := by
  induction src generalizing acc with
  | nil => simpa [mergeInto] using h
  | cons hd tl ih =>
    obtain ⟨k1, b1⟩ := hd
    simp only [mergeInto, List.foldl_cons] at *
    exact ih _ (nodup_idxKeys_idxAppend acc k1 b1 h)

theorem mergeTwo_idxLookup {α : Type} [DecidableEq α] (a b : Index α) (k : α)
    (ha : (idxKeys a).Nodup) (hb : (idxKeys b).Nodup) :
    idxLookup (mergeInto (mergeInto [] a) b) k = idxLookup a k ++ idxLookup b k := by
  rw [idxLookup_mergeInto, idxLookup_mergeInto]
  simp only [idxLookup]
  rw [bucketsOf_eq_idxLookup a k ha, bucketsOf_eq_idxLookup b k hb,
    List.nil_append]

theorem MergeFileSizeIndexes_pair (a b : FileSizeIndex) :
    MergeFileSizeIndexes [a, b] = mergeInto (mergeInto [] a) b := rfl

theorem mem_allFiles_idxAppend {α : Type} [DecidableEq α] (m : Index α) (k : α)
    (vs : FileMatches) (f : FileMatch) (h : f ∈ allFiles (idxAppend m k vs)) :
    f ∈ allFiles m ∨ f ∈ vs := by
  induction m with
  | nil =>
    simp only [idxAppend, allFiles, List.map_cons, List.map_nil,
      List.flatten_cons, List.flatten_nil, List.append_nil] at h
    exact Or.inr h
  | cons hd tl ih =>
    obtain ⟨k1, b1⟩ := hd
    by_cases hk : k = k1
    · subst hk
      simp only [idxAppend, if_pos rfl, if_true, allFiles, List.map_cons,
        List.flatten_cons, List.mem_append] at h ⊢
      rcases h with (h | h) | h
      · exact Or.inl (Or.inl h)
      · exact Or.inr h
      · exact Or.inl (Or.inr h)
    · simp only [idxAppend, hk, if_false, allFiles, List.map_cons,
        List.flatten_cons, List.mem_append] at h ⊢
      rcases h with h | h
      · exact Or.inl (Or.inl h)
      · rcases ih h with h2 | h2
        · exact Or.inl (Or.inr h2)
        · exact Or.inr h2

theorem mem_bucket_allFiles {α : Type} (m : Index α) (k : α) (b : FileMatches)
    (f : FileMatch) (hm : (k, b) ∈ m) (hf : f ∈ b) : f ∈ allFiles m := by
  simp only [allFiles, List.mem_flatten]
  exact ⟨b, List.mem_map.mpr ⟨(k, b), hm, rfl⟩, hf⟩

theorem processPath_fold_size_lb (t : Int) (entries : List WalkEntry) :
    ∀ acc : FileSizeIndex, (∀ f ∈ allFiles acc, t ≤ f.size) →
      ∀ f ∈ allFiles (entries.foldl
        (fun fileSizeIndex e =>
          if e.isDir then fileSizeIndex
          else if e.size < t then fileSizeIndex
          else idxAppend fileSizeIndex e.size [mkFileMatch e]) acc),
        t ≤ f.size := by
  induction entries with
  | nil => intro acc hacc f hf; exact hacc f hf
  | cons e rest ih =>
    intro acc hacc f hf
    simp only [List.foldl_cons] at hf
    refine ih _ ?_ f hf
    intro g hg
    by_cases hd : e.isDir
    · simp only [hd, if_true] at hg
      exact hacc g hg
    · by_cases hs : e.size < t
      · simp only [hd, hs, if_false, if_true] at hg
        exact hacc g hg
      · simp only [hd, hs, if_false] at hg
        rcases mem_allFiles_idxAppend _ _ _ _ hg with h2 | h2
        · exact hacc g h2
        · simp only [List.mem_singleton] at h2
          subst h2
          simp only [mkFileMatch]
          omega

/-- Every file record in the size index built by `ProcessPath` has at
least the threshold size (the scanner skips smaller files). -/
theorem processPath_size_lb (t : Int) (entries : List WalkEntry) :
    ∀ f ∈ allFiles (ProcessPath t entries), t ≤ f.size := by
  have h := processPath_fold_size_lb t entries [] (by simp [allFiles])
  intro f hf
  exact h f hf

theorem mem_prune_iff {α : Type} (fi : Index α) (d : Int) (k : α) (b : FileMatches) :
    (k, b) ∈ fi.filter (fun e => !decide ((e.2.length : Int) < d)) ↔
      (k, b) ∈ fi ∧ ¬((b.length : Int) < d) := by
  rw [List.mem_filter]
  simp

theorem foldl_add_int {β : Type} (g : β → Int) (l : List β) (a : Int) :
    l.foldl (fun acc e => acc + g e) a = a + (l.map g).sum := by
  induction l generalizing a with
  | nil => simp
  | cons e rest ih =>
    simp only [List.foldl_cons, List.map_cons, List.sum_cons, ih]
    ring

/-! ## Helper lemmas about the prune engine -/

theorem verify_ok_iff (cs : SHA256Checksum) (fs : FSModel) (file : String) :
    SHA256Checksum.Verify cs fs file = Except.ok () ↔ fs.digest file = some cs := by
  unfold SHA256Checksum.Verify
  cases h : fs.digest file with
  | none => simp
  | some d =>
    by_cases hd : d = cs
    · subst hd
      simp
    · simp [hd]

theorem validate_ok_digest (fs : FSModel) (e : DuplicateFileSetEntry) (n : Nat)
    (h : ValidateInputRow fs e n = Except.ok ()) :
    fs.digest (joinPath e.parentDirectory e.filename) = some e.checksum := by
  unfold ValidateInputRow at h
  split_ifs at h
  exact (verify_ok_iff e.checksum fs (joinPath e.parentDirectory e.filename)).mp h

theorem updateSizeInfo_eq (fs : FSModel) (hr : Int → String)
    (e : DuplicateFileSetEntry) :
    UpdateSizeInfo fs hr e =
      if e.sizeInBytes = 0 then
        match fs.statSize (joinPath e.parentDirectory e.filename) with
        | none => Except.error "unable to stat file to determine size in bytes"
        | some sz =>
          Except.ok { e with
            sizeInBytes := sz
            sizeHR := if e.sizeHR = "" then hr sz else e.sizeHR }
      else
        Except.ok { e with
          sizeHR := if e.sizeHR = "" then hr e.sizeInBytes else e.sizeHR } := by
  unfold UpdateSizeInfo
  by_cases hz : e.sizeInBytes = 0
  · rw [if_pos hz, if_pos hz]
    cases hstat : fs.statSize (joinPath e.parentDirectory e.filename) with
    | none => rfl
    | some sz =>
      simp only [Except.map]
      by_cases hhr : e.sizeHR = "" <;> simp [hhr]
  · rw [if_neg hz, if_neg hz]
    simp only [Except.map]
    by_cases hhr : e.sizeHR = "" <;> simp [hhr]

theorem updateSizeInfo_fields (fs : FSModel) (hr : Int → String)
    (e e2 : DuplicateFileSetEntry) (h : UpdateSizeInfo fs hr e = Except.ok e2) :
    e2.parentDirectory = e.parentDirectory ∧ e2.filename = e.filename ∧
      e2.checksum = e.checksum ∧ e2.removeFile = e.removeFile := by
  rw [updateSizeInfo_eq] at h
  by_cases hz : e.sizeInBytes = 0
  · rw [if_pos hz] at h
    cases hstat : fs.statSize (joinPath e.parentDirectory e.filename) with
    | none => rw [hstat] at h; simp at h
    | some sz =>
      rw [hstat] at h
      simp only [Except.ok.injEq] at h
      subst h
      exact ⟨rfl, rfl, rfl, rfl⟩
  · rw [if_neg hz] at h
    simp only [Except.ok.injEq] at h
    subst h
    exact ⟨rfl, rfl, rfl, rfl⟩

theorem processOneRow_accepted (cfg : PruneConfig) (fs : FSModel)
    (hr : Int → String) (n : Nat) (row : List String) (e : DuplicateFileSetEntry)
    (h : processOneRow cfg fs hr n row = RowStep.accepted e) :
    fs.digest (joinPath e.parentDirectory e.filename) = some e.checksum := by
  unfold processOneRow at h
  split at h
  · exact absurd h (by simp)
  · split at h
    · split at h <;> simp at h
    · rename_i e0 hp
      split at h
      · split at h <;> simp at h
      · rename_i u hv
        split at h
        · split at h <;> simp at h
        · rename_i e2 hu
          have he : e2 = e := by simpa using h
          subst he
          cases u
          obtain ⟨h1, h2, h3, _⟩ := updateSizeInfo_fields fs hr e0 e2 hu
          have hd := validate_ok_digest fs e0 n hv
          rw [joinPath] at hd ⊢
          rw [h1, h2, h3]
          exact hd

theorem processOneRow_mismatch (cfg : PruneConfig) (fs : FSModel)
    (hr : Int → String) (n : Nat) (row : List String) (e : DuplicateFileSetEntry)
    (hn : ¬(n = 1 ∧ cfg.useFirstRow = false))
    (hp : ParseInputRow row InputCSVFieldCount n = Except.ok e)
    (hmm2 : fs.digest (joinPath e.parentDirectory e.filename) ≠ some e.checksum) :
    processOneRow cfg fs hr n row =
      (if cfg.ignoreErrors then RowStep.skipped else RowStep.fatal) := by
  cases hv : ValidateInputRow fs e n with
  | error msg => simp [processOneRow, hn, hp, hv]
  | ok u =>
    cases u
    exact absurd (validate_ok_digest fs e n hv) hmm2

theorem accepted_mem_processRowsFrom (cfg : PruneConfig) (fs : FSModel)
    (hr : Int → String) (rows : List (List String)) :
    ∀ (start n : Nat) (e : DuplicateFileSetEntry)
      (es : List (Nat × DuplicateFileSetEntry)),
      processRowsFrom cfg fs hr start rows = LoopOutcome.completed es →
      (n, e) ∈ es →
      ∃ (i : Nat) (row : List String), rows.get? i = some row ∧ n = start + i ∧
        processOneRow cfg fs hr n row = RowStep.accepted e := by
  induction rows with
  | nil =>
    intro start n e es hrun hmem
    simp only [processRowsFrom] at hrun
    cases hrun
    simp at hmem
  | cons row rest ih =>
    intro start n e es hrun hmem
    simp only [processRowsFrom] at hrun
    cases hstep : processOneRow cfg fs hr start row with
    | skipped =>
      rw [hstep] at hrun
      obtain ⟨i, r, hget, hn, hrow⟩ := ih (start + 1) n e es hrun hmem
      exact ⟨i + 1, r, hget, by omega, hrow⟩
    | fatal =>
      rw [hstep] at hrun
      cases hrun
    | accepted e0 =>
      rw [hstep] at hrun
      cases hrec : processRowsFrom cfg fs hr (start + 1) rest with
      | fatalAt m => rw [hrec] at hrun; cases hrun
      | completed es0 =>
        rw [hrec] at hrun
        cases hrun
        rcases List.mem_cons.mp hmem with hhd | htl
        · obtain ⟨hn, he⟩ := Prod.mk.injEq .. ▸ hhd
          refine ⟨0, row, rfl, by omega, ?_⟩
          rw [← hn] at hstep
          rw [hstep, he]
        · obtain ⟨i, r, hget, hn, hrow⟩ := ih (start + 1) n e es0 hrec htl
          exact ⟨i + 1, r, hget, by omega, hrow⟩

theorem fatal_of_row_fatal (cfg : PruneConfig) (fs : FSModel) (hr : Int → String)
    (rows : List (List String)) :
    ∀ (start i : Nat) (row : List String), rows.get? i = some row →
      processOneRow cfg fs hr (start + i) row = RowStep.fatal →
      ∃ m, processRowsFrom cfg fs hr start rows = LoopOutcome.fatalAt m := by
  induction rows with
  | nil => intro start i row hget; simp at hget
  | cons r rest ih =>
    intro start i row hget hfat
    cases i with
    | zero =>
      simp only [List.get?_cons_zero, Option.some.injEq] at hget
      subst hget
      refine ⟨start, ?_⟩
      simp only [processRowsFrom]
      rw [show start + 0 = start from rfl] at hfat
      rw [hfat]
    | succ j =>
      simp only [List.get?_cons_succ] at hget
      have hfat2 : processOneRow cfg fs hr (start + 1 + j) row = RowStep.fatal := by
        have : start + (j + 1) = start + 1 + j := by omega
        rw [← this]
        exact hfat
      cases hstep : processOneRow cfg fs hr start r with
      | skipped =>
        obtain ⟨m, hm⟩ := ih (start + 1) j row hget hfat2
        exact ⟨m, by simp only [processRowsFrom]; rw [hstep]; exact hm⟩
      | fatal =>
        exact ⟨start, by simp only [processRowsFrom]; rw [hstep]⟩
      | accepted e0 =>
        obtain ⟨m, hm⟩ := ih (start + 1) j row hget hfat2
        refine ⟨m, ?_⟩
        simp only [processRowsFrom]
        rw [hstep, hm]

theorem pruneRun_accepted_eq (cfg : PruneConfig) (fs : FSModel) (hr : Int → String)
    (rows : List (List String)) (es : List (Nat × DuplicateFileSetEntry))
    (h : processRows cfg fs hr rows = LoopOutcome.completed es) :
    (pruneRun cfg fs hr rows).accepted = es := by
  simp only [pruneRun, h]
  split <;> rfl

theorem runBackups_mem (fs : FSModel) :
    ∀ (l : List (Nat × DuplicateFileSetEntry)) (n : Nat) (p : String),
      (n, p) ∈ (runBackups fs l).1 → ∃ e, (n, e) ∈ l := by
  intro l
  induction l with
  | nil => intro n p h; simp [runBackups] at h
  | cons hd tl ih =>
    intro n p h
    obtain ⟨m, e⟩ := hd
    simp only [runBackups] at h
    by_cases hb : fs.backupOk (joinPath e.parentDirectory e.filename)
    · rw [if_pos hb] at h
      rcases List.mem_cons.mp h with hh | ht
      · obtain ⟨hn, _⟩ := Prod.mk.injEq .. ▸ hh
        exact ⟨e, by rw [hn]; exact List.mem_cons_self _ _⟩
      · obtain ⟨e2, he2⟩ := ih n p ht
        exact ⟨e2, List.mem_cons_of_mem _ he2⟩
    · rw [if_neg hb] at h
      simp at h

theorem runRemovals_mem (fs : FSModel) (ig : Bool) :
    ∀ (l : List (Nat × DuplicateFileSetEntry)) (n : Nat) (p : String),
      (n, p) ∈ (runRemovals fs ig l).1 → ∃ e, (n, e) ∈ l := by
  intro l
  induction l with
  | nil => intro n p h; simp [runRemovals] at h
  | cons hd tl ih =>
    intro n p h
    obtain ⟨m, e⟩ := hd
    simp only [runRemovals] at h
    by_cases hb : fs.removeOk (joinPath e.parentDirectory e.filename)
    · rw [if_pos hb] at h
      rcases List.mem_cons.mp h with hh | ht
      · obtain ⟨hn, _⟩ := Prod.mk.injEq .. ▸ hh
        exact ⟨e, by rw [hn]; exact List.mem_cons_self _ _⟩
      · obtain ⟨e2, he2⟩ := ih n p ht
        exact ⟨e2, List.mem_cons_of_mem _ he2⟩
    · rw [if_neg hb] at h
      by_cases hig : ig
      · rw [if_pos hig] at h
        obtain ⟨e2, he2⟩ := ih n p h
        exact ⟨e2, List.mem_cons_of_mem _ he2⟩
      · rw [if_neg hig] at h
        simp at h

theorem runActions_mem_backedUp (cfg : PruneConfig) (fs : FSModel)
    (l : List (Nat × DuplicateFileSetEntry)) (n : Nat) (p : String)
    (h : (n, p) ∈ (runActions cfg fs l).backedUp) : ∃ e, (n, e) ∈ l := by
  unfold runActions at h
  by_cases hdr : cfg.dryRun
  · simp [hdr, noActions] at h
  · rw [if_neg hdr] at h
    simp only at h
    by_cases hbd : cfg.backupDirectory ≠ ""
    · rw [if_pos hbd] at h
      by_cases hpe : PathExists fs cfg.backupDirectory = false
      · rw [if_pos hpe] at h
        simp [noActions] at h
      · rw [if_neg hpe] at h
        by_cases hf : (runBackups fs l).2
        · rw [if_pos hf] at h
          simp only [noActions] at h
          exact runBackups_mem fs l n p h
        · rw [if_neg hf] at h
          by_cases hrf : (runRemovals fs cfg.ignoreErrors l).2.2 <;>
            simp only [hrf, if_pos, if_neg, if_true, if_false, noActions] at h <;>
            exact runBackups_mem fs l n p h
    · rw [if_neg hbd] at h
      by_cases hrf : (runRemovals fs cfg.ignoreErrors l).2.2 <;>
        simp only [hrf, if_pos, if_neg, if_true, if_false, noActions] at h <;>
        simp at h

theorem runActions_mem_removed (cfg : PruneConfig) (fs : FSModel)
    (l : List (Nat × DuplicateFileSetEntry)) (n : Nat) (p : String)
    (h : (n, p) ∈ (runActions cfg fs l).removed) : ∃ e, (n, e) ∈ l := by
  unfold runActions at h
  by_cases hdr : cfg.dryRun
  · simp [hdr, noActions] at h
  · rw [if_neg hdr] at h
    simp only at h
    by_cases hbd : cfg.backupDirectory ≠ ""
    · rw [if_pos hbd] at h
      by_cases hpe : PathExists fs cfg.backupDirectory = false
      · rw [if_pos hpe] at h
        simp [noActions] at h
      · rw [if_neg hpe] at h
        by_cases hf : (runBackups fs l).2
        · rw [if_pos hf] at h
          simp [noActions] at h
        · rw [if_neg hf] at h
          by_cases hrf : (runRemovals fs cfg.ignoreErrors l).2.2 <;>
            simp only [hrf, if_pos, if_neg, if_true, if_false, noActions] at h <;>
            exact runRemovals_mem fs cfg.ignoreErrors l n p h
    · rw [if_neg hbd] at h
      by_cases hrf : (runRemovals fs cfg.ignoreErrors l).2.2 <;>
        simp only [hrf, if_pos, if_neg, if_true, if_false, noActions] at h <;>
        exact runRemovals_mem fs cfg.ignoreErrors l n p h

/-! ## Decimal formatting and parsing round trip -/

theorem digitChar_mem (d : Nat) :
    digitChar d ∈ (['0', '1', '2', '3', '4', '5', '6', '7', '8', '9'] : List Char) := by
  unfold digitChar
  repeat' split
  all_goals decide

theorem digitVal_digitChar (d : Nat) (h : d < 10) :
    digitVal (digitChar d) = some d := by
  interval_cases d <;> decide

theorem toDigitsRev_zero : toDigitsRev 0 = [] := by
  unfold toDigitsRev
  rfl

theorem toDigitsRev_pos (n : Nat) (h : n ≠ 0) :
    toDigitsRev n = n % 10 :: toDigitsRev (n / 10) := by
  rw [toDigitsRev]
  simp [h]

theorem toDigitsRev_lt (n : Nat) : ∀ d ∈ toDigitsRev n, d < 10 := by
  induction n using Nat.strong_induction_on with
  | _ n ih =>
    by_cases h : n = 0
    · subst h
      simp [toDigitsRev_zero]
    · rw [toDigitsRev_pos n h]
      intro d hd
      rcases List.mem_cons.mp hd with h1 | h1
      · subst h1
        exact Nat.mod_lt _ (by decide)
      · exact ih (n / 10) (Nat.div_lt_self (Nat.pos_of_ne_zero h) (by decide)) d h1

theorem toDigitsRev_ne_nil (n : Nat) (h : n ≠ 0) : toDigitsRev n ≠ [] := by
  rw [toDigitsRev_pos n h]
  simp

theorem parseDigitsAcc_map (ds : List Nat) (h : ∀ d ∈ ds, d < 10) :
    ∀ a : Nat, parseDigitsAcc (ds.map digitChar) a =
      some (ds.foldl (fun x d => x * 10 + d) a) := by
  induction ds with
  | nil => intro a; rfl
  | cons d rest ih =>
    intro a
    simp only [List.map_cons, parseDigitsAcc,
      digitVal_digitChar d (h d (List.mem_cons_self d rest)), List.foldl_cons]
    exact ih (fun x hx => h x (List.mem_cons_of_mem _ hx)) (a * 10 + d)

theorem foldl_digits_eq (n : Nat) :
    (toDigitsRev n).reverse.foldl (fun x d => x * 10 + d) 0 = n := by
  induction n using Nat.strong_induction_on with
  | _ n ih =>
    by_cases h : n = 0
    · subst h
      simp [toDigitsRev_zero]
    · rw [toDigitsRev_pos n h, List.reverse_cons, List.foldl_append]
      simp only [List.foldl_cons, List.foldl_nil]
      rw [ih (n / 10) (Nat.div_lt_self (Nat.pos_of_ne_zero h) (by decide))]
      have := Nat.div_add_mod n 10
      omega

theorem natRepr_data (n : Nat) :
    (natRepr n).data =
      if n = 0 then ['0'] else ((toDigitsRev n).reverse).map digitChar := by
  unfold natRepr
  by_cases h : n = 0 <;> simp [h]

theorem parseNatDigits_cons (l : List Char) (h : l ≠ []) :
    parseNatDigits l = parseDigitsAcc l 0 := by
  cases l with
  | nil => exact absurd rfl h
  | cons c cs => rfl

theorem parseNatDigits_natRepr (n : Nat) :
    parseNatDigits (natRepr n).data = some n := by
  rw [natRepr_data]
  by_cases h : n = 0
  · subst h
    decide
  · rw [if_neg h]
    have hne : ((toDigitsRev n).reverse).map digitChar ≠ [] := by
      simp [toDigitsRev_ne_nil n h]
    rw [parseNatDigits_cons _ hne]
    have hlt : ∀ d ∈ (toDigitsRev n).reverse, d < 10 := by
      intro d hd
      exact toDigitsRev_lt n d (List.mem_reverse.mp hd)
    rw [parseDigitsAcc_map _ hlt 0, foldl_digits_eq]

theorem natRepr_chars (m : Nat) :
    ∀ c ∈ (natRepr m).data,
      c ∈ (['0', '1', '2', '3', '4', '5', '6', '7', '8', '9'] : List Char) := by
  rw [natRepr_data]
  by_cases h : m = 0
  · simp [h]
  · rw [if_neg h]
    intro c hc
    obtain ⟨d, _, rfl⟩ := List.mem_map.mp hc
    exact digitChar_mem d

theorem natRepr_ne_nil (m : Nat) : (natRepr m).data ≠ [] := by
  rw [natRepr_data]
  by_cases h : m = 0
  · simp [h]
  · rw [if_neg h]
    simp [toDigitsRev_ne_nil m h]

theorem data_append (s t : String) : (s ++ t).data = s.data ++ t.data := rfl

theorem ParseInt64_FormatInt (n : Int) (hlo : -(2 ^ 63) ≤ n) (hhi : n < 2 ^ 63) :
    ParseInt64 (FormatInt n) = some n := by
  unfold FormatInt
  by_cases hneg : n < 0
  · rw [if_pos hneg]
    have hdata : ("-" ++ natRepr (-n).toNat).data = '-' :: (natRepr (-n).toNat).data := by
      rw [data_append]
      rfl
    unfold ParseInt64
    rw [hdata]
    simp only [if_pos rfl, parseNatDigits_natRepr, Option.bind_eq_bind,
      Option.some_bind]
    have hle : (-n).toNat ≤ 2 ^ 63 := by omega
    rw [if_pos hle]
    have : (((-n).toNat : Int)) = -n := by omega
    rw [this]
    simp
  · rw [if_neg hneg]
    have hchars := natRepr_chars n.toNat
    obtain ⟨c, cs, hcs⟩ : ∃ c cs, (natRepr n.toNat).data = c :: cs := by
      cases hd : (natRepr n.toNat).data with
      | nil => exact absurd hd (natRepr_ne_nil n.toNat)
      | cons c cs => exact ⟨c, cs, rfl⟩
    have hcmem := hchars c (by rw [hcs]; exact List.mem_cons_self c cs)
    have hcm : ¬c = '-' := by
      intro hh
      subst hh
      simp at hcmem
    have hcp : ¬c = '+' := by
      intro hh
      subst hh
      simp at hcmem
    unfold ParseInt64
    rw [hcs]
    simp only [if_neg hcm, if_neg hcp]
    rw [← hcs, parseNatDigits_natRepr]
    simp only [Option.bind_eq_bind, Option.some_bind]
    have hle : n.toNat ≤ 2 ^ 63 - 1 := by omega
    rw [if_pos hle]
    have : ((n.toNat : Int)) = n := by omega
    rw [this]

theorem trimLeftChars_eq_self (l : List Char) (h : ∀ c ∈ l, isGoSpace c = false) :
    trimLeftChars l = l := by
  cases l with
  | nil => rfl
  | cons c cs =>
    unfold trimLeftChars
    rw [if_neg]
    simp [h c (List.mem_cons_self c cs)]

theorem trimSpace_eq_self (s : String) (h : ∀ c ∈ s.data, isGoSpace c = false) :
    trimSpace s = s := by
  unfold trimSpace
  rw [trimLeftChars_eq_self s.data h]
  rw [trimLeftChars_eq_self s.data.reverse (fun c hc => h c (List.mem_reverse.mp hc))]
  rw [List.reverse_reverse]

theorem digit_chars_not_space :
    ∀ c ∈ (['0', '1', '2', '3', '4', '5', '6', '7', '8', '9'] : List Char),
      isGoSpace c = false := by decide

theorem formatInt_chars_not_space (n : Int) :
    ∀ c ∈ (FormatInt n).data, isGoSpace c = false := by
  unfold FormatInt
  by_cases hneg : n < 0
  · rw [if_pos hneg]
    intro c hc
    rw [data_append] at hc
    rcases List.mem_append.mp hc with h1 | h1
    · have : c = '-' := by simpa using h1
      subst this
      decide
    · exact digit_chars_not_space c (natRepr_chars (-n).toNat c h1)
  · rw [if_neg hneg]
    intro c hc
    exact digit_chars_not_space c (natRepr_chars n.toNat c hc)

theorem trimSpace_formatInt (n : Int) : trimSpace (FormatInt n) = FormatInt n :=
  trimSpace_eq_self _ (formatInt_chars_not_space n)

theorem formatInt_ne_empty (n : Int) : FormatInt n ≠ "" := by
  intro h
  have hdata : (FormatInt n).data = [] := by rw [h]
  unfold FormatInt at hdata
  by_cases hneg : n < 0
  · rw [if_pos hneg, data_append] at hdata
    simp at hdata
  · rw [if_neg hneg] at hdata
    exact natRepr_ne_nil n.toNat hdata

theorem trimSpace_empty : trimSpace "" = "" := rfl

/-- Parsing the data row written for a file record recovers the
directory, filename, byte size and checksum, with the removal flag
defaulted to false. -/
theorem parse_generate (hr : Int → String) (fm : FileMatch) (k : Nat)
    (hd1 : fm.parentDirectory ≠ "")
    (hd2 : trimSpace fm.parentDirectory = fm.parentDirectory)
    (hn1 : fm.name ≠ "") (hn2 : trimSpace fm.name = fm.name)
    (hc1 : fm.checksum ≠ "") (hc2 : trimSpace fm.checksum = fm.checksum)
    (hlo : -(2 ^ 63) ≤ fm.size) (hhi : fm.size < 2 ^ 63) :
    ParseInputRow (FileMatch.GenerateCSVDataRow hr fm) InputCSVFieldCount k =
      Except.ok (roundTripEntry hr fm) := by
  unfold ParseInputRow FileMatch.GenerateCSVDataRow InputCSVFieldCount
  simp only [List.map_cons, List.map_nil, hd2, hn2, hc2, trimSpace_formatInt,
    trimSpace_empty, List.length_cons, List.length_nil, List.getD_cons_zero,
    List.getD_cons_succ]
  rw [if_neg (by decide)]
  rw [if_neg hd1, if_neg hn1, if_neg (formatInt_ne_empty fm.size),
    ParseInt64_FormatInt fm.size hlo hhi]
  simp [hc1, roundTripEntry, ParseBool]

/-! ## Claim theorems -/

/-- C2: after threshold pruning, every file record remaining in the
size index built by `ProcessPath` has size at least the configured
file-size threshold and every remaining bucket has at least the
duplicates threshold many members; moreover both pruners keep exactly
the buckets whose member count is not strictly below the threshold. -/
theorem C2_prune_threshold_invariant (t d : Int) (entries : List WalkEntry) :
    (∀ (k : Int) (b : FileMatches),
      (k, b) ∈ FileSizeIndex.PruneFileSizeIndex (ProcessPath t entries) d →
        (∀ f ∈ b, t ≤ f.size) ∧ d ≤ (b.length : Int)) ∧
    (∀ (fi : FileSizeIndex) (k : Int) (b : FileMatches),
      (k, b) ∈ FileSizeIndex.PruneFileSizeIndex fi d ↔
        (k, b) ∈ fi ∧ ¬((b.length : Int) < d)) ∧
    (∀ (fi : FileChecksumIndex) (k : SHA256Checksum) (b : FileMatches),
      (k, b) ∈ FileChecksumIndex.PruneFileChecksumIndex fi d ↔
        (k, b) ∈ fi ∧ ¬((b.length : Int) < d)) := by
  refine ⟨?_, ?_, ?_⟩
  · intro k b hmem
    have h := (mem_prune_iff (ProcessPath t entries) d k b).mp hmem
    refine ⟨?_, by omega⟩
    intro f hf
    exact processPath_size_lb t entries f (mem_bucket_allFiles _ k b f h.1 hf)
  · intro fi k b
    exact mem_prune_iff fi d k b
  · intro fi k b
    exact mem_prune_iff fi d k b

/-- Witness for C2 at a concrete scan: threshold 2 and duplicate
threshold 2 on `scanEntries` keep the single bucket of the two 5-byte
files. -/
theorem C2_witness :
    (∀ f ∈ ([mkFileMatch entryA, mkFileMatch entryB] : FileMatches),
      (2 : Int) ≤ f.size) ∧
    (2 : Int) ≤ (([mkFileMatch entryA, mkFileMatch entryB] : FileMatches).length : Int) :=
  (C2_prune_threshold_invariant 2 2 scanEntries).1 5
    [mkFileMatch entryA, mkFileMatch entryB] (by decide)

/-- C3: merging partial size indexes is order independent — swapping
the two arguments preserves the key set and permutes each bucket, and
merging three indexes associates exactly, for indexes with unique keys
(which is what Go maps provide). -/
theorem C3_merge_order_independent (a b c : FileSizeIndex)
    (ha : (idxKeys a).Nodup) (hb : (idxKeys b).Nodup) (hc : (idxKeys c).Nodup) :
    (∀ k : Int,
      (k ∈ idxKeys (MergeFileSizeIndexes [a, b]) ↔
        k ∈ idxKeys (MergeFileSizeIndexes [b, a])) ∧
      (idxLookup (MergeFileSizeIndexes [a, b]) k).Perm
        (idxLookup (MergeFileSizeIndexes [b, a]) k)) ∧
    (∀ k : Int,
      (k ∈ idxKeys (MergeFileSizeIndexes [MergeFileSizeIndexes [a, b], c]) ↔
        k ∈ idxKeys (MergeFileSizeIndexes [a, MergeFileSizeIndexes [b, c]])) ∧
      idxLookup (MergeFileSizeIndexes [MergeFileSizeIndexes [a, b], c]) k =
        idxLookup (MergeFileSizeIndexes [a, MergeFileSizeIndexes [b, c]]) k) := by
  have key2 : ∀ (x y : FileSizeIndex) (k : Int),
      k ∈ idxKeys (MergeFileSizeIndexes [x, y]) ↔ k ∈ idxKeys x ∨ k ∈ idxKeys y := by
    intro x y k
    rw [MergeFileSizeIndexes_pair, mem_idxKeys_mergeInto, mem_idxKeys_mergeInto]
    simp [idxKeys]
  have ndm : ∀ x y : FileSizeIndex, (idxKeys (MergeFileSizeIndexes [x, y])).Nodup := by
    intro x y
    rw [MergeFileSizeIndexes_pair]
    exact nodup_idxKeys_mergeInto _ _
      (nodup_idxKeys_mergeInto _ _ (by simp [idxKeys]))
  have look2 : ∀ (x y : FileSizeIndex), (idxKeys x).Nodup → (idxKeys y).Nodup →
      ∀ k : Int, idxLookup (MergeFileSizeIndexes [x, y]) k =
        idxLookup x k ++ idxLookup y k := by
    intro x y hx hy k
    rw [MergeFileSizeIndexes_pair]
    exact mergeTwo_idxLookup x y k hx hy
  refine ⟨fun k => ⟨?_, ?_⟩, fun k => ⟨?_, ?_⟩⟩
  · rw [key2, key2]
    tauto
  · rw [look2 a b ha hb, look2 b a hb ha]
    exact List.perm_append_comm
  · rw [key2, key2, key2, key2]
    tauto
  · rw [look2 _ c (ndm a b) hc, look2 a b ha hb, look2 a _ ha (ndm b c),
      look2 b c hb hc, List.append_assoc]

/-- Witness for C3 at concrete indexes. -/
theorem C3_witness :
    ((5 : Int) ∈ idxKeys (MergeFileSizeIndexes [idxA, idxB]) ↔
      (5 : Int) ∈ idxKeys (MergeFileSizeIndexes [idxB, idxA])) ∧
    (idxLookup (MergeFileSizeIndexes [idxA, idxB]) 5).Perm
      (idxLookup (MergeFileSizeIndexes [idxB, idxA]) 5) ∧
    idxLookup (MergeFileSizeIndexes [MergeFileSizeIndexes [idxA, idxB], idxC]) 7 =
      idxLookup (MergeFileSizeIndexes [idxA, MergeFileSizeIndexes [idxB, idxC]]) 7 := by
  have h := C3_merge_order_independent idxA idxB idxC (by decide) (by decide)
    (by decide)
  exact ⟨(h.1 5).1, (h.1 5).2, (h.2 7).2⟩

/-- C4: the wasted-space total of a checksum index is the sum over all
duplicate sets of (member count minus one) times the size of the first
member; a set of N copies of a file contributes (N minus 1) times its
size, so a pair contributes exactly one file size. -/
theorem C4_wasted_space_formula :
    (∀ fi : FileChecksumIndex,
      FileChecksumIndex.GetWastedSpace fi =
        (fi.map (fun e => ((e.2.length : Int) - 1) * bucketHeadSize e.2)).sum) ∧
    (∀ (cs : SHA256Checksum) (f : FileMatch) (n : Nat), 1 ≤ n →
      FileChecksumIndex.GetWastedSpace [(cs, List.replicate n f)] =
        ((n : Int) - 1) * f.size) ∧
    (∀ (cs : SHA256Checksum) (f : FileMatch),
      FileChecksumIndex.GetWastedSpace [(cs, [f, f])] = f.size) := by
  refine ⟨?_, ?_, ?_⟩
  · intro fi
    have h := foldl_add_int
      (fun e : SHA256Checksum × FileMatches =>
        ((e.2.length : Int) - 1) * bucketHeadSize e.2) fi 0
    simpa [FileChecksumIndex.GetWastedSpace] using h
  · intro cs f n hn
    obtain ⟨m, rfl⟩ : ∃ m, n = m + 1 := ⟨n - 1, by omega⟩
    simp only [FileChecksumIndex.GetWastedSpace, List.foldl_cons, List.foldl_nil,
      List.replicate_succ, bucketHeadSize, List.length_cons, List.length_replicate]
    push_cast
    ring
  · intro cs f
    simp only [FileChecksumIndex.GetWastedSpace, List.foldl_cons, List.foldl_nil,
      bucketHeadSize, List.length_cons, List.length_nil]
    push_cast
    ring

/-- Witness for C4: a pair of identical 5-byte records wastes 5 bytes. -/
theorem C4_witness :
    FileChecksumIndex.GetWastedSpace [("aa", List.replicate 2 fmA)] =
      (((2 : Nat) : Int) - 1) * fmA.size :=
  C4_wasted_space_formula.2.1 "aa" fmA 2 (by decide)

/-- C1: a report row whose recorded checksum does not match the fresh
digest of the live file is rejected by `ValidateInputRow`
(whatever its removal flag says), never enters the accepted entry
list, and is neither backed up nor removed; the ignore-errors flag
only selects between skipping the row and aborting the run. -/
theorem C1_checksum_mismatch_rejects_row (cfg : PruneConfig) (fs : FSModel)
    (hr : Int → String) (rows : List (List String)) (i : Nat) (row : List String)
    (e : DuplicateFileSetEntry)
    (hrow : rows.get? i = some row)
    (hparse : ParseInputRow row InputCSVFieldCount (i + 1) = Except.ok e)
    (hheader : i = 0 → cfg.useFirstRow = true)
    (hmm2 : fs.digest (joinPath e.parentDirectory e.filename) ≠ some e.checksum) :
    (ValidateInputRow fs e (i + 1) ≠ Except.ok ()) ∧
    (processOneRow cfg fs hr (i + 1) row =
      (if cfg.ignoreErrors then RowStep.skipped else RowStep.fatal)) ∧
    (∀ e2 : DuplicateFileSetEntry, (i + 1, e2) ∉ (pruneRun cfg fs hr rows).accepted) ∧
    (∀ p : String, (i + 1, p) ∉ (pruneRun cfg fs hr rows).actions.backedUp ∧
      (i + 1, p) ∉ (pruneRun cfg fs hr rows).actions.removed) := by
  have hn : ¬(i + 1 = 1 ∧ cfg.useFirstRow = false) := by
    rintro ⟨h1, h2⟩
    have hi : i = 0 := by omega
    rw [hheader hi] at h2
    cases h2
  have hstep := processOneRow_mismatch cfg fs hr (i + 1) row e hn hparse hmm2
  have hnotacc : ∀ e2 : DuplicateFileSetEntry,
      (i + 1, e2) ∉ (pruneRun cfg fs hr rows).accepted := by
    intro e2 hmem
    cases ho : processRows cfg fs hr rows with
    | fatalAt m =>
      have : (pruneRun cfg fs hr rows).accepted = [] := by
        simp [pruneRun, ho]
      rw [this] at hmem
      simp at hmem
    | completed es =>
      rw [pruneRun_accepted_eq cfg fs hr rows es ho] at hmem
      obtain ⟨j, rowj, hgetj, hj, hrowj⟩ :=
        accepted_mem_processRowsFrom cfg fs hr rows 1 (i + 1) e2 es ho hmem
      have hji : j = i := by omega
      subst hji
      rw [hrow] at hgetj
      cases hgetj
      rw [hstep] at hrowj
      by_cases hig : cfg.ignoreErrors <;> simp [hig] at hrowj
  refine ⟨?_, hstep, hnotacc, ?_⟩
  · intro hv
    exact hmm2 (validate_ok_digest fs e (i + 1) hv)
  · intro p
    constructor
    · intro hmem
      cases ho : processRows cfg fs hr rows with
      | fatalAt m =>
        have : (pruneRun cfg fs hr rows).actions = noActions := by
          simp [pruneRun, ho]
        rw [this] at hmem
        simp [noActions] at hmem
      | completed es =>
        have hact : (pruneRun cfg fs hr rows).actions = noActions ∨
            (pruneRun cfg fs hr rows).actions =
              runActions cfg fs (es.filter (fun q => q.2.removeFile)) := by
          simp only [pruneRun, ho]
          split
          · exact Or.inl rfl
          · exact Or.inr rfl
        rcases hact with hact | hact
        · rw [hact] at hmem
          simp [noActions] at hmem
        · rw [hact] at hmem
          obtain ⟨e2, he2⟩ := runActions_mem_backedUp cfg fs _ (i + 1) p hmem
          have he3 : (i + 1, e2) ∈ es := List.mem_of_mem_filter he2
          rw [← pruneRun_accepted_eq cfg fs hr rows es ho] at he3
          exact hnotacc e2 he3
    · intro hmem
      cases ho : processRows cfg fs hr rows with
      | fatalAt m =>
        have : (pruneRun cfg fs hr rows).actions = noActions := by
          simp [pruneRun, ho]
        rw [this] at hmem
        simp [noActions] at hmem
      | completed es =>
        have hact : (pruneRun cfg fs hr rows).actions = noActions ∨
            (pruneRun cfg fs hr rows).actions =
              runActions cfg fs (es.filter (fun q => q.2.removeFile)) := by
          simp only [pruneRun, ho]
          split
          · exact Or.inl rfl
          · exact Or.inr rfl
        rcases hact with hact | hact
        · rw [hact] at hmem
          simp [noActions] at hmem
        · rw [hact] at hmem
          obtain ⟨e2, he2⟩ := runActions_mem_removed cfg fs _ (i + 1) p hmem
          have he3 : (i + 1, e2) ∈ es := List.mem_of_mem_filter he2
          rw [← pruneRun_accepted_eq cfg fs hr rows es ho] at he3
          exact hnotacc e2 he3

/-- Witness for C1: under `fsW` the live digest is dd while row 2 of
`rowsW` records aa; in strict mode the row is fatal, and it never
enters the accepted list. -/
theorem C1_witness :
    processOneRow cfgStrict fsW hrW 2 rowW = RowStep.fatal ∧
    (∀ e2 : DuplicateFileSetEntry,
      (2, e2) ∉ (pruneRun cfgStrict fsW hrW rowsW).accepted) := by
  have h := C1_checksum_mismatch_rejects_row cfgStrict fsW hrW rowsW 1 rowW eW
    rfl rfl (fun hh => absurd hh (by decide)) (by decide)
  exact ⟨by simpa using h.2.1, h.2.2.1⟩

/-- C9: every entry accepted by the prune read loop has a checksum
that matches the fresh digest of its live file — including entries not
flagged for removal — and in strict (non-ignore-errors) mode a
checksum mismatch in any parsed row aborts the run with no accepted
entries and no backup or removal action. -/
theorem C9_accepted_rows_verified (cfg : PruneConfig) (fs : FSModel)
    (hr : Int → String) (rows : List (List String)) :
    (∀ (n : Nat) (e : DuplicateFileSetEntry),
      (n, e) ∈ (pruneRun cfg fs hr rows).accepted →
      fs.digest (joinPath e.parentDirectory e.filename) = some e.checksum) ∧
    (∀ (i : Nat) (row : List String) (e : DuplicateFileSetEntry),
      cfg.ignoreErrors = false →
      rows.get? i = some row →
      (i = 0 → cfg.useFirstRow = true) →
      ParseInputRow row InputCSVFieldCount (i + 1) = Except.ok e →
      fs.digest (joinPath e.parentDirectory e.filename) ≠ some e.checksum →
      (∃ m, processRows cfg fs hr rows = LoopOutcome.fatalAt m) ∧
      (pruneRun cfg fs hr rows).accepted = [] ∧
      (pruneRun cfg fs hr rows).actions = noActions) := by
  constructor
  · intro n e hmem
    cases ho : processRows cfg fs hr rows with
    | fatalAt m =>
      have : (pruneRun cfg fs hr rows).accepted = [] := by
        simp [pruneRun, ho]
      rw [this] at hmem
      simp at hmem
    | completed es =>
      rw [pruneRun_accepted_eq cfg fs hr rows es ho] at hmem
      obtain ⟨j, rowj, _, _, hrowj⟩ :=
        accepted_mem_processRowsFrom cfg fs hr rows 1 n e es ho hmem
      exact processOneRow_accepted cfg fs hr n rowj e hrowj
  · intro i row e hig hget hheader hparse hmm2
    have hn : ¬(i + 1 = 1 ∧ cfg.useFirstRow = false) := by
      rintro ⟨h1, h2⟩
      have hi : i = 0 := by omega
      rw [hheader hi] at h2
      cases h2
    have hstep := processOneRow_mismatch cfg fs hr (i + 1) row e hn hparse hmm2
    rw [hig] at hstep
    simp only [Bool.false_eq_true, if_false] at hstep
    have hstep2 : processOneRow cfg fs hr (1 + i) row = RowStep.fatal := by
      have : 1 + i = i + 1 := by omega
      rw [this]
      exact hstep
    obtain ⟨m, hm⟩ := fatal_of_row_fatal cfg fs hr rows 1 i row hget hstep2
    refine ⟨⟨m, hm⟩, ?_, ?_⟩ <;> simp [pruneRun, processRows, hm]

/-- Witness for C9: the stale row in `rowsW` aborts the strict-mode
run before any action. -/
theorem C9_witness :
    (∃ m, processRows cfgStrict fsW hrW rowsW = LoopOutcome.fatalAt m) ∧
    (pruneRun cfgStrict fsW hrW rowsW).accepted = [] ∧
    (pruneRun cfgStrict fsW hrW rowsW).actions = noActions :=
  (C9_accepted_rows_verified cfgStrict fsW hrW rowsW).2 1 rowW eW rfl rfl
    (fun hh => absurd hh (by decide)) rfl (by decide)

/-- C5 (code evaluated at the failing input): on the spec scenario of
three 100-byte files with two identical, the summary assembled by
`cmd/report/main.go` reports `TotalEvaluatedFiles = 1` — the number of
size buckets left after pruning, not the 3 files the scanner evaluated
— while the duplicate count (1) and wasted space (100) match the
spec. -/
theorem C5_total_evaluated_files_miscount :
    reportSummary fsC5 false 1 2 [scanC5] =
      Except.ok
        { TotalEvaluatedFiles := 1
          FileSizeMatchSets := 1
          FileHashMatchSets := 1
          FileSizeMatches := 3
          FileHashMatches := 2
          WastedSpace := 100
          DuplicateCount := 1 } ∧
    (1 : Nat) ≠ 3 :=
  ⟨rfl, by decide⟩

/-- C7 counterexample: a row of six empty fields is a parse error
(empty parent directory), and in strict mode the run aborts at that
row instead of continuing. -/
theorem C7_counterexample :
    ParseInputRow GenerateEmptyCSVDataRow InputCSVFieldCount 2 =
      Except.error "empty parent directory path" ∧
    processRows cfgStrict fsW hrW [GenerateCSVHeaderRow, GenerateEmptyCSVDataRow] =
      LoopOutcome.fatalAt 2 :=
  ⟨rfl, rfl⟩

/-- C7 amended: an all-empty separator row is rejected by
`ParseInputRow` (empty parent directory) and never becomes a candidate
record; with ignore-errors set it is skipped and parsing continues
with the next row, and with ignore-errors unset the run aborts at that
row. -/
theorem C7_blank_row_amended (cfg : PruneConfig) (fs : FSModel) (hr : Int → String)
    (n : Nat) (rest : List (List String)) :
    (ParseInputRow GenerateEmptyCSVDataRow InputCSVFieldCount n =
      Except.error "empty parent directory path") ∧
    (∀ e : DuplicateFileSetEntry,
      processOneRow cfg fs hr n GenerateEmptyCSVDataRow ≠ RowStep.accepted e) ∧
    (cfg.ignoreErrors = true →
      processRowsFrom cfg fs hr n (GenerateEmptyCSVDataRow :: rest) =
        processRowsFrom cfg fs hr (n + 1) rest) ∧
    (cfg.ignoreErrors = false → ¬(n = 1 ∧ cfg.useFirstRow = false) →
      processRowsFrom cfg fs hr n (GenerateEmptyCSVDataRow :: rest) =
        LoopOutcome.fatalAt n) := by
  have hperr : ParseInputRow GenerateEmptyCSVDataRow InputCSVFieldCount n =
      Except.error "empty parent directory path" := rfl
  have hpo : processOneRow cfg fs hr n GenerateEmptyCSVDataRow =
      if n = 1 ∧ cfg.useFirstRow = false then RowStep.skipped
      else if cfg.ignoreErrors then RowStep.skipped else RowStep.fatal := by
    by_cases hh : n = 1 ∧ cfg.useFirstRow = false
    · simp [processOneRow, hh]
    · simp [processOneRow, hh, hperr]
  refine ⟨hperr, ?_, ?_, ?_⟩
  · intro e he
    rw [hpo] at he
    by_cases hh : n = 1 ∧ cfg.useFirstRow = false
    · simp [hh] at he
    · by_cases hig : cfg.ignoreErrors <;> simp [hh, hig] at he
  · intro hig
    simp only [processRowsFrom]
    rw [hpo]
    by_cases hh : n = 1 ∧ cfg.useFirstRow = false
    · simp [hh]
    · simp [hh, hig]
  · intro hig hh
    simp only [processRowsFrom]
    rw [hpo]
    simp [hh, hig]

/-- Witness for C7: under ignore-errors, a blank row at position 2 is
skipped and processing continues. -/
theorem C7_witness :
    processRowsFrom cfgIgnore fsW hrW 2 (GenerateEmptyCSVDataRow :: []) =
      processRowsFrom cfgIgnore fsW hrW 3 [] :=
  (C7_blank_row_amended cfgIgnore fsW hrW 2 []).2.2.1 rfl

/-- C8 counterexample: with ignore-errors set and a backup directory
configured, a backup-copy failure aborts the whole run (the file is
not skipped, processing does not continue) and no tally is printed —
the claimed gating of backup errors and the tally-on-abort both fail. -/
theorem C8_counterexample :
    cfgBak.ignoreErrors = true ∧
    (runActions cfgBak fsBakFail [(2, eW)]).fatalStop = true ∧
    (runActions cfgBak fsBakFail [(2, eW)]).removed = [] ∧
    (runActions cfgBak fsBakFail [(2, eW)]).tallyPrinted = false :=
  ⟨rfl, rfl, rfl, rfl⟩

/-- C8 amended: removal failures are gated by ignore-errors (counted
and skipped when set, abort when unset); a backup-copy failure aborts
regardless of ignore-errors; and the removal tally is printed exactly
when the action phase is not in dry-run and did not abort. -/
theorem C8_action_errors_amended (cfg : PruneConfig) (fs : FSModel)
    (l : List (Nat × DuplicateFileSetEntry)) (n : Nat)
    (e : DuplicateFileSetEntry) (rest : List (Nat × DuplicateFileSetEntry)) :
    (fs.removeOk (joinPath e.parentDirectory e.filename) = false →
      (runRemovals fs true ((n, e) :: rest) =
        ((runRemovals fs true rest).1, (runRemovals fs true rest).2.1 + 1,
          (runRemovals fs true rest).2.2)) ∧
      runRemovals fs false ((n, e) :: rest) = ([], 0, true)) ∧
    (fs.backupOk (joinPath e.parentDirectory e.filename) = false →
      runBackups fs ((n, e) :: rest) = ([], true)) ∧
    ((runActions cfg fs l).tallyPrinted = true ↔
      cfg.dryRun = false ∧ (runActions cfg fs l).fatalStop = false) := by
  refine ⟨?_, ?_, ?_⟩
  · intro hrf
    constructor
    · simp [runRemovals, hrf]
    · simp [runRemovals, hrf]
  · intro hbf
    simp [runBackups, hbf]
  · unfold runActions
    by_cases hdr : cfg.dryRun
    · simp [hdr, noActions]
    · rw [if_neg hdr]
      simp only
      by_cases hbd : cfg.backupDirectory ≠ ""
      · rw [if_pos hbd]
        by_cases hpe : PathExists fs cfg.backupDirectory = false
        · rw [if_pos hpe]
          simp [noActions, hdr]
        · rw [if_neg hpe]
          by_cases hf : (runBackups fs l).2
          · rw [if_pos hf]
            simp [noActions, hdr]
          · rw [if_neg hf]
            by_cases hrf : (runRemovals fs cfg.ignoreErrors l).2.2 <;>
              simp [hrf, noActions, hdr]
      · rw [if_neg hbd]
        by_cases hrf : (runRemovals fs cfg.ignoreErrors l).2.2 <;>
          simp [hrf, noActions, hdr]

/-- Witness for C8 amended: a failing removal in strict mode aborts
immediately, and the tally iff holds at a concrete run. -/
theorem C8_witness :
    runRemovals fsRemFail false [(2, eW)] = ([], 0, true) ∧
    ((runActions cfgStrict fsRemFail [(2, eW)]).tallyPrinted = true ↔
      cfgStrict.dryRun = false ∧
        (runActions cfgStrict fsRemFail [(2, eW)]).fatalStop = false) :=
  ⟨((C8_action_errors_amended cfgStrict fsRemFail [(2, eW)] 2 eW []).1 rfl).2,
    (C8_action_errors_amended cfgStrict fsRemFail [(2, eW)] 2 eW []).2.2⟩

/-- C10: the size backfill re-stats the file only when the parsed byte
size is exactly zero — any nonzero value is kept verbatim and the
result does not depend on the filesystem at all — and the
human-readable size is regenerated from the byte size only when it is
blank. -/
theorem C10_size_backfill (fs fs2 : FSModel) (hr : Int → String)
    (e : DuplicateFileSetEntry) :
    (e.sizeInBytes ≠ 0 →
      UpdateSizeInfo fs hr e =
        Except.ok { e with
          sizeHR := if e.sizeHR = "" then hr e.sizeInBytes else e.sizeHR } ∧
      UpdateSizeInfo fs hr e = UpdateSizeInfo fs2 hr e) ∧
    (e.sizeInBytes = 0 →
      (∀ sz, fs.statSize (joinPath e.parentDirectory e.filename) = some sz →
        UpdateSizeInfo fs hr e =
          Except.ok { e with
            sizeInBytes := sz
            sizeHR := if e.sizeHR = "" then hr sz else e.sizeHR }) ∧
      (fs.statSize (joinPath e.parentDirectory e.filename) = none →
        UpdateSizeInfo fs hr e =
          Except.error "unable to stat file to determine size in bytes")) ∧
    (e.sizeHR ≠ "" → ∀ e2, UpdateSizeInfo fs hr e = Except.ok e2 →
      e2.sizeHR = e.sizeHR) := by
  refine ⟨?_, ?_, ?_⟩
  · intro hz
    constructor
    · rw [updateSizeInfo_eq, if_neg hz]
    · rw [updateSizeInfo_eq, updateSizeInfo_eq, if_neg hz, if_neg hz]
  · intro hz
    constructor
    · intro sz hstat
      rw [updateSizeInfo_eq, if_pos hz, hstat]
    · intro hstat
      rw [updateSizeInfo_eq, if_pos hz, hstat]
  · intro hhr e2 h
    rw [updateSizeInfo_eq] at h
    by_cases hz : e.sizeInBytes = 0
    · rw [if_pos hz] at h
      cases hstat : fs.statSize (joinPath e.parentDirectory e.filename) with
      | none => rw [hstat] at h; simp at h
      | some sz =>
        rw [hstat] at h
        simp only [Except.ok.injEq] at h
        subst h
        simp [hhr]
    · rw [if_neg hz] at h
      simp only [Except.ok.injEq] at h
      subst h
      simp [hhr]

/-- C6: round-trip law — parsing the data rows written for a pruned
checksum index yields, for each written file record, an entry whose
parent directory, filename and checksum equal the originals, whose
byte size reparses to the original size, and whose removal flag is
false (the writer emits a blank placeholder and the reader defaults a
blank flag to false).  The side conditions state that the recorded
fields are non-blank and carry no surrounding whitespace, and that the
size fits in 64 bits — all guaranteed for records produced by the
scanner. -/
theorem C6_report_roundtrip (hr : Int → String) (fi : FileChecksumIndex) (k : Nat)
    (h : ∀ f ∈ allFiles fi,
      f.parentDirectory ≠ "" ∧ trimSpace f.parentDirectory = f.parentDirectory ∧
      f.name ≠ "" ∧ trimSpace f.name = f.name ∧
      f.checksum ≠ "" ∧ trimSpace f.checksum = f.checksum ∧
      -(2 ^ 63) ≤ f.size ∧ f.size < 2 ^ 63) :
    ((WriteFileMatchesCSVRows hr fi false).drop 1).map
        (fun row => ParseInputRow row InputCSVFieldCount k) =
      (allFiles fi).map (fun f => Except.ok (roundTripEntry hr f)) := by
  have hdrop : (WriteFileMatchesCSVRows hr fi false).drop 1 =
      (fi.map (fun e => e.2.map (FileMatch.GenerateCSVDataRow hr))).flatten := by
    simp [WriteFileMatchesCSVRows]
  rw [hdrop, allFiles]
  rw [List.map_flatten, List.map_flatten, List.map_map, List.map_map]
  congr 1
  apply List.map_congr_left
  intro e he
  simp only [Function.comp]
  rw [List.map_map]
  apply List.map_congr_left
  intro f hf
  simp only [Function.comp]
  obtain ⟨hd1, hd2, hn1, hn2, hc1, hc2, hlo, hhi⟩ :=
    h f (mem_bucket_allFiles fi e.1 e.2 f he hf)
  exact parse_generate hr f k hd1 hd2 hn1 hn2 hc1 hc2 hlo hhi

/-- Witness for C6 at a one-set index. -/
theorem C6_witness :
    ((WriteFileMatchesCSVRows hrW [("aa", [fmA])] false).drop 1).map
        (fun row => ParseInputRow row InputCSVFieldCount 2) =
      (allFiles [("aa", [fmA])]).map (fun f => Except.ok (roundTripEntry hrW f)) :=
  C6_report_roundtrip hrW [("aa", [fmA])] 2 (by decide)

/-- Witness for C10: a row carrying byte size 42 is accepted verbatim
under two different filesystem models. -/
theorem C10_witness :
    UpdateSizeInfo fsW hrW eWnz =
      Except.ok { eWnz with
        sizeHR := if eWnz.sizeHR = "" then hrW eWnz.sizeInBytes else eWnz.sizeHR } ∧
    UpdateSizeInfo fsW hrW eWnz = UpdateSizeInfo fsBakFail hrW eWnz :=
  (C10_size_backfill fsW fsBakFail hrW eWnz).1 (by decide)

end Bridge
